import Mathlib

/-!
Verification of the deck expression-and-pipeline evaluation engine.

This file is a shallow embedding of the Rust core (src/executor/mod.rs,
src/executor/traits.rs, src/pipeline/context.rs, src/pipeline/error.rs,
src/operators/*) into Lean, together with theorems settling the claims
about the engine.

Modelling conventions:
* `serde_json::Value` is the inductive `Value` below; objects are modelled
  as association lists in insertion order; numbers keep serde_json's
  three-variant representation (`PosInt`/`NegInt`/`Float`).
* `f64` payloads are modelled as exact rationals.  All numeric values that
  occur in the claims are far below 2^53, where the `u64 -> f64` and
  `i64 -> f64` casts performed by `as_f64` are exact; serde_json numbers
  can never hold NaN or infinities (`Number::from_f64` rejects them and
  JSON text cannot denote them), so `partial_cmp` on the modelled domain
  is total and the NaN error branch of `compare_values` is dead code.
* `HashMap` iteration order is unspecified in Rust; wherever the code
  iterates a `HashMap` we model the map as an association list and
  quantify over all list orders.
* External collaborators (database / time / request traits) and external
  crates used by the evaluator (jsonschema, jsonpath_rust) as well as the
  derive(Debug) formatter are abstracted as function-valued fields of the
  `Executor` structure, mirroring the trait objects held by the Rust
  `Executor`.
-/

/-- Model of `serde_json::Number`: an untagged union of a non-negative
integer (`u64`), a negative integer (`i64`) and a double (`f64`, modelled
as an exact rational). -/
inductive Number where
  | PosInt (n : Nat)
  | NegInt (i : Int)
  | Float (f : ℚ)
deriving DecidableEq, Repr

/-- Model of `serde_json::Value`. -/
inductive Value where
  | null
  | bool (b : Bool)
  | number (n : Number)
  | string (s : String)
  | array (xs : List Value)
  | object (fields : List (String × Value))

mutual

/-- Syntactic equality of values (componentwise; object fields compared
in order).  Order-insensitive object equality, as implemented by
serde_json's map equality, is obtained below by comparing canonicalised
values. -/
def Value.beq : Value → Value → Bool
  | .null, .null => true
  | .bool a, .bool b => a == b
  | .number a, .number b => a == b
  | .string a, .string b => a == b
  | .array a, .array b => Value.beqList a b
  | .object a, .object b => Value.beqFields a b
  | _, _ => false

/-- Elementwise equality of value lists. -/
def Value.beqList : List Value → List Value → Bool
  | [], [] => true
  | x :: xs, y :: ys => Value.beq x y && Value.beqList xs ys
  | _, _ => false

/-- Elementwise equality of object field lists. -/
def Value.beqFields : List (String × Value) → List (String × Value) → Bool
  | [], [] => true
  | (k, v) :: xs, (l, w) :: ys => k == l && Value.beq v w && Value.beqFields xs ys
  | _, _ => false

end

/-- `Number::as_f64`, which is total for non-arbitrary-precision
serde_json numbers (`u64`/`i64` casts to `f64` and the identity on the
float variant). -/
def Number.asF64 : Number → ℚ
  | .PosInt n => (n : ℚ)
  | .NegInt i => (i : ℚ)
  | .Float f => f

/-- Lookup in an association-list model of a string-keyed map
(`serde_json::Map::get` / `HashMap::get`): the first binding wins; maps
built by `mapInsert` never contain duplicate keys. -/
def mapGet (m : List (String × Value)) (k : String) : Option Value :=
  match m with
  | [] => none
  | (l, v) :: rest => if l = k then some v else mapGet rest k

/-- Insert into an association-list model of a string-keyed map
(`serde_json::Map::insert`): an existing key keeps its position and gets
the new value; a new key is appended at the end. -/
def mapInsert (m : List (String × Value)) (k : String) (v : Value) :
    List (String × Value) :=
  match m with
  | [] => [(k, v)]
  | (l, w) :: rest => if l = k then (l, v) :: rest else (l, w) :: mapInsert rest k v

/-- `serde_json::Map::contains_key`. -/
def mapContains (m : List (String × Value)) (k : String) : Bool :=
  match m with
  | [] => false
  | (l, _) :: rest => l = k || mapContains rest k

/-- Stable insertion used by `stableSortBy`: the element goes in front of
the first list entry it is not strictly greater than, so equal elements
keep their original relative order. -/
def insertSorted {α : Type} (le : α → α → Bool) (x : α) : List α → List α
  | [] => [x]
  | y :: ys => if le x y then x :: y :: ys else y :: insertSorted le x ys

/-- Stable sort by a boolean "less or equal" relation; models Rust's
stable `slice::sort_by`. -/
def stableSortBy {α : Type} (le : α → α → Bool) : List α → List α
  | [] => []
  | x :: xs => insertSorted le x (stableSortBy le xs)

/-- Canonical form of a value: object fields are recursively sorted by
key.  Comparing canonical forms with the syntactic `Value.beq` yields
serde_json's order-insensitive map equality (object construction in the
engine always goes through `mapInsert`, so keys are unique). -/
def Value.canon : Value → Value
  | .null => .null
  | .bool b => .bool b
  | .number n => .number n
  | .string s => .string s
  | .array xs => .array (xs.attach.map fun x => Value.canon x.1)
  | .object fs =>
      .object (stableSortBy (fun a b => a.1 ≤ b.1)
        (fs.attach.map fun f => (f.1.1, Value.canon f.1.2)))
decreasing_by
  · have h := List.sizeOf_lt_of_mem x.2
    simp only [Value.array.sizeOf_spec]
    omega
  · obtain ⟨⟨k, v⟩, hf⟩ := f
    have h := List.sizeOf_lt_of_mem hf
    simp only [Value.object.sizeOf_spec] at h ⊢
    simp only [Prod.mk.sizeOf_spec] at h
    omega

/-- Value equality as serde_json implements `PartialEq` for `Value`:
structural, with objects compared as maps (key order irrelevant) and
numbers compared representation-sensitively (`1` as `u64` is not equal to
`1.0` as `f64`). -/
def jsonEq (a b : Value) : Bool :=
  Value.beq a.canon b.canon

/-- Truthiness of a value (`Executor::is_truthy`): null and false are
false, a number is true iff nonzero, strings/arrays/objects are true iff
non-empty. -/
def isTruthy : Value → Bool
  | .null => false
  | .bool b => b
  | .number n => decide (n.asF64 ≠ 0)
  | .string s => !s.isEmpty
  | .array a => !a.isEmpty
  | .object o => !o.isEmpty

/-- Type name of a value for error messages (`Executor::type_name`). -/
def typeName : Value → String
  | .null => "null"
  | .bool _ => "boolean"
  | .number _ => "number"
  | .string _ => "string"
  | .array _ => "array"
  | .object _ => "object"

/-- Rust's `f64::partial_cmp` on the modelled (finite, exact) numeric
domain, where it is total. -/
def ratCmp (a b : ℚ) : Ordering :=
  if a < b then .lt else if b < a then .gt else .eq

/-- Codepoint comparison of two characters. -/
def charCmp (a b : Char) : Ordering :=
  if a.toNat < b.toNat then .lt else if b.toNat < a.toNat then .gt else .eq

/-- Lexicographic comparison of character lists. -/
def charListCmp : List Char → List Char → Ordering
  | [], [] => .eq
  | [], _ :: _ => .lt
  | _ :: _, [] => .gt
  | x :: xs, y :: ys =>
    match charCmp x y with
    | .eq => charListCmp xs ys
    | o => o

/-- Rust's `str::cmp`: bytewise comparison of the UTF-8 encodings, which
coincides with lexicographic comparison of the codepoint sequences. -/
def strCmp (a b : String) : Ordering :=
  charListCmp a.data b.data

/-- The closed error taxonomy (`ExecutionError` in src/pipeline/error.rs). -/
inductive ExecutionError where
  | pathNotFound (path : String)
  | typeError (message : String) (expected : Option String) (actual : Option String)
  | databaseError (message : String)
  | validationError (message : String) (errors : List String)
  | templateError (message : String)
  | invalidOperator (operator : String) (message : String)
  | divisionByZero
  | indexOutOfBounds (index : Nat) (length : Nat)
  | earlyReturn (status : Nat) (headers : List (String × Value)) (body : Value)
  | custom (message : String)

/-- Classifier mirroring the `matches!(e, ExecutionError::EarlyReturn{..})`
checks used by the engine's tests. -/
def ExecutionError.isEarlyReturn : ExecutionError → Bool
  | .earlyReturn _ _ _ => true
  | _ => false

/-- Classifier mirroring `matches!(e, ExecutionError::Custom{..})`. -/
def ExecutionError.isCustom : ExecutionError → Bool
  | .custom _ => true
  | _ => false

/-- The per-request execution context (`Context` in
src/pipeline/context.rs): a `HashMap<String, Value>`, modelled as an
association list without duplicate keys. -/
abbrev Context := List (String × Value)

/-- `Context::with_var` / `set_var`: `HashMap::insert`. -/
def Context.withVar (ctx : Context) (name : String) (v : Value) : Context :=
  mapInsert ctx name v

/-- `Context::get`: top-level variable lookup. -/
def Context.getVar (ctx : Context) (name : String) : Option Value :=
  mapGet ctx name

/-- Rust's `str::parse::<usize>`: an optional leading plus sign followed
by at least one ASCII digit, rejecting values that overflow 64 bits
(computed over the character sequence). -/
def parseUsize (s : String) : Option Nat :=
  let t := match s.data with
    | c :: rest => if c = '+' then rest else s.data
    | [] => s.data
  if t.isEmpty || !t.all Char.isDigit then none
  else
    let n := t.foldl (fun acc c => acc * 10 + (c.toNat - 48)) 0
    if n < 2 ^ 64 then some n else none

/-- The traversal loop of `Context::get_path`: descend the remaining path
components, by key through objects and by parsed integer index through
arrays; a leftover component on a non-container fails. -/
def descendPath : Value → List String → Option Value
  | v, [] => some v
  | .object fields, part :: rest => (mapGet fields part).bind (descendPath · rest)
  | .array xs, part :: rest =>
      ((parseUsize part).bind (fun i => xs.get? i)).bind (descendPath · rest)
  | _, _ :: _ => none

/-- Rust's `str::split` with a `'.'` separator, on the character
sequence of the path: the list of dot-separated components, including
empty components produced by leading, trailing or consecutive dots.
Always returns at least one element. -/
def splitDots : List Char → List String
  | [] => [""]
  | c :: rest =>
    let r := splitDots rest
    if c = '.' then "" :: r
    else
      match r with
      | h :: t => String.mk (c :: h.data) :: t
      | [] => [String.mk [c]]

/-- `Context::get_path`: split on dots, look the first component up among
the variables, then descend.  (The split never returns an empty list, so
the `parts.is_empty()` guard of the source is vacuous.) -/
def Context.getPath (ctx : Context) (path : String) : Option Value :=
  match splitDots path.data with
  | [] => none
  | root :: rest => (mapGet ctx root).bind (fun v => descendPath v rest)

/-- `Context::has_path`. -/
def Context.hasPath (ctx : Context) (path : String) : Bool :=
  (Context.getPath ctx path).isSome

/-- Sort order for database queries (src/operators/database.rs). -/
inductive SortOrder where
  | Ascending
  | Descending
deriving DecidableEq, Repr

/-- `MockDatabase::matches_filter`: a document matches iff it is an
object and, for every filter entry, the field is present with an equal
value, or the field is absent and the filter value is null. -/
def matchesFilter (doc : Value) (filter : List (String × Value)) : Bool :=
  match doc with
  | .object fields =>
      filter.all fun kv =>
        match mapGet fields kv.1, kv.2 with
        | some dv, fv => jsonEq dv fv
        | none, .null => true
        | none, _ => false
  | _ => false

/-- `MockDatabase::project_fields`: keep only the selected fields of an
object (in selection order); non-objects are returned unchanged. -/
def projectFields (doc : Value) (select : List String) : Value :=
  match doc with
  | .object fields =>
      .object (select.foldl
        (fun acc field =>
          match mapGet fields field with
          | some v => mapInsert acc field v
          | none => acc)
        [])
  | v => v

/-- `serde_json::Value::get` with a string key: a map lookup on objects,
`None` on every other variant. -/
def valGet (v : Value) (field : String) : Option Value :=
  match v with
  | .object fields => mapGet fields field
  | _ => none

/-- The comparator closure inside `MockDatabase::sort_documents`:
numbers compare via `as_f64`, strings lexicographically, a present field
sorts after an absent one, and everything else compares equal; a
descending order reverses the outcome. -/
def compareForSort (field : String) (order : SortOrder) (a b : Value) : Ordering :=
  let cmp :=
    match valGet a field, valGet b field with
    | some (.number x), some (.number y) => ratCmp x.asF64 y.asF64
    | some (.string x), some (.string y) => strCmp x y
    | some _, none => .gt
    | none, some _ => .lt
    | _, _ => .eq
  match order with
  | .Ascending => cmp
  | .Descending => cmp.swap

/-- `MockDatabase::sort_documents`: only the first entry of the sort map
is used (`sort.iter().next()`; `HashMap` iteration order is unspecified,
so the model quantifies over the order of the association list). -/
def sortDocuments (docs : List Value) (sort : List (String × SortOrder)) : List Value :=
  match sort with
  | [] => docs
  | (field, order) :: _ =>
      stableSortBy (fun a b => compareForSort field order a b ≠ .gt) docs

/-- `MockDatabase::merge_update`: shallow merge of the update map into an
object document; non-objects are left unchanged. -/
def mergeUpdate (doc : Value) (update : List (String × Value)) : Value :=
  match doc with
  | .object fields =>
      .object (update.foldl (fun acc kv => mapInsert acc kv.1 kv.2) fields)
  | v => v

/-- The in-memory mock storage provider (`MockDatabase`): a map from
collection name to document list, plus the counter behind the default
`id_{n}` generator. -/
structure MockDatabase where
  collections : String → Option (List Value)
  counter : Nat

/-- `MockDatabase::new`: no collections, counter at zero. -/
def MockDatabase.new : MockDatabase :=
  { collections := fun _ => none, counter := 0 }

/-- `MockDatabase::with_collection`. -/
def MockDatabase.withCollection (db : MockDatabase) (name : String)
    (documents : List Value) : MockDatabase :=
  { db with collections := fun c => if c = name then some documents else db.collections c }

/-- The default ID generator of `MockDatabase::new`: increment the
counter, then format `id_{counter}`. -/
def idGen (counter : Nat) : String :=
  "id_" ++ toString (counter + 1)

/-- The `HashMap<String, Value>` argument of `insert`/`update`/`delete`
turned into a `serde_json::Map` by iterated insertion
(iteration order unspecified, hence quantified over). -/
def buildDoc (document : List (String × Value)) : List (String × Value) :=
  document.foldl (fun acc kv => mapInsert acc kv.1 kv.2) []

/-- `MockDatabase::query`: missing collection yields an empty result;
otherwise apply filter, then sort, then skip, then limit, then field
projection. -/
def MockDatabase.query (db : MockDatabase) (collection : String)
    (filter : Option (List (String × Value))) (select : Option (List String))
    (limit skip : Option Nat) (sort : Option (List (String × SortOrder))) :
    Except ExecutionError (List Value) :=
  match db.collections collection with
  | none => .ok []
  | some docs =>
    let filtered :=
      match filter with
      | some f => docs.filter (fun doc => matchesFilter doc f)
      | none => docs
    let sorted :=
      match sort with
      | some s => sortDocuments filtered s
      | none => filtered
    let skipCount := skip.getD 0
    let afterSkip := if skipCount > 0 then sorted.drop skipCount else sorted
    let limited :=
      match limit with
      | some l => afterSkip.take l
      | none => afterSkip
    let projected :=
      match select with
      | some fields => limited.map (fun doc => projectFields doc fields)
      | none => limited
    .ok projected

/-- `MockDatabase::insert`: build the document map, generate an `_id`
only when the key is absent, and append the document to the collection
(creating it when absent).  Returns the inserted document. -/
def MockDatabase.insert (db : MockDatabase) (collection : String)
    (document : List (String × Value)) :
    Except ExecutionError Value × MockDatabase :=
  let docObj := buildDoc document
  let withId :=
    if mapContains docObj "_id" then (docObj, db.counter)
    else (mapInsert docObj "_id" (.string (idGen db.counter)), db.counter + 1)
  let docValue := Value.object withId.1
  let newDocs := (db.collections collection).getD [] ++ [docValue]
  (.ok docValue,
   { collections := fun c => if c = collection then some newDocs else db.collections c,
     counter := withId.2 })

/-- `MockDatabase::update`: missing collection yields an empty result;
otherwise shallow-merge the update map into every matching document in
place and return the post-update matching documents. -/
def MockDatabase.update (db : MockDatabase) (collection : String)
    (filter update : List (String × Value)) :
    Except ExecutionError (List Value) × MockDatabase :=
  match db.collections collection with
  | none => (.ok [], db)
  | some docs =>
    let newDocs := docs.map fun d =>
      if matchesFilter d filter then mergeUpdate d update else d
    let updatedDocs :=
      (docs.filter fun d => matchesFilter d filter).map fun d => mergeUpdate d update
    (.ok updatedDocs,
     { db with collections := fun c => if c = collection then some newDocs else db.collections c })

/-- `MockDatabase::delete`: missing collection yields an empty result;
otherwise remove every matching document, preserving the order of the
remainder, and return the deleted documents in order (the source's
index-based removal loop is a partition). -/
def MockDatabase.delete (db : MockDatabase) (collection : String)
    (filter : List (String × Value)) :
    Except ExecutionError (List Value) × MockDatabase :=
  match db.collections collection with
  | none => (.ok [], db)
  | some docs =>
    let deletedDocs := docs.filter fun d => matchesFilter d filter
    let remaining := docs.filter fun d => !matchesFilter d filter
    (.ok deletedDocs,
     { db with collections := fun c => if c = collection then some remaining else db.collections c })

/-- `Value::is_null`. -/
def Value.isNull : Value → Bool
  | .null => true
  | _ => false

mutual

/-- `OperatorValue` (src/operators/mod.rs): an operator node or a literal
value. -/
inductive OperatorValue where
  | Operator (op : Operator)
  | Literal (v : Value)

/-- `Operator` (src/operators/mod.rs): the closed tag set of the DSL.
Payload structs are inlined as constructor fields; `u16`/`u32` payloads
are modelled as `Nat`; `HashMap` payloads as association lists. -/
inductive Operator where
  | Get (path : String)
  | JsonPath (path : String)
  | If (condition : OperatorValue) (thenBranch : OperatorValue)
      (elseBranch : Option OperatorValue)
  | Switch (onValue : OperatorValue) (cases : List (Value × OperatorValue))
      (defaultBranch : Option OperatorValue)
  | Map (over : OperatorValue) (doBody : OperatorValue)
  | Filter (over : OperatorValue) (whereCond : OperatorValue)
  | Reduce (over : OperatorValue) (withBody : OperatorValue) (initial : Value)
  | DbQuery (collection : String) (filter : Option (List (String × OperatorValue)))
      (select : Option (List String)) (limit : Option Nat) (skip : Option Nat)
      (sort : Option (List (String × SortOrder)))
  | DbInsert (collection : String) (document : List (String × OperatorValue))
      (validate : Bool)
  | DbUpdate (collection : String) (filter : List (String × OperatorValue))
      (update : List (String × OperatorValue)) (validate : Bool)
  | DbDelete (collection : String) (filter : List (String × OperatorValue))
  | Merge (objects : List OperatorValue)
  | Exists (value : OperatorValue)
  | RenderString (template : String)
  | Return (status : Nat) (headers : List (String × OperatorValue))
      (body : OperatorValue)
  | Validate (data : OperatorValue) (schema : Value) (onFail : Option OperatorValue)
  | Now
  | Eq (left right : OperatorValue)
  | Ne (left right : OperatorValue)
  | Gt (left right : OperatorValue)
  | Gte (left right : OperatorValue)
  | Lt (left right : OperatorValue)
  | Lte (left right : OperatorValue)
  | And (conditions : List OperatorValue)
  | Or (conditions : List OperatorValue)
  | Not (condition : OperatorValue)
  | Add (operands : List OperatorValue)
  | Subtract (left right : OperatorValue)
  | Multiply (operands : List OperatorValue)
  | Divide (left right : OperatorValue)

end

/-- A compiled JSON-Schema validator as the evaluator consumes it
(`jsonschema::Validator`): validity check plus the error list produced by
`iter_errors`. -/
structure Validator where
  isValid : Value → Bool
  iterErrors : Value → List String

/-- The evaluator's collaborator bundle.  The Rust `Executor` holds
`&dyn DatabaseProvider` and `&dyn TimeProvider` (the request surface is
unused by `eval_operator`); the database is modelled as four state-passing
functions over an abstract state `σ` (interior mutability of the
provider).  `validatorFor` abstracts `jsonschema::validator_for`,
`jsonPathQuery` abstracts the jsonpath_rust query on the serialised
variable map, and `debugFmt` abstracts the derive(Debug) rendering used in
the catch-all "not yet implemented" message. -/
structure Executor (σ : Type) where
  dbQuery : σ → String → Option (List (String × Value)) → Option (List String) →
    Option Nat → Option Nat → Option (List (String × SortOrder)) →
    Except ExecutionError (List Value) × σ
  dbInsert : σ → String → List (String × Value) → Except ExecutionError Value × σ
  dbUpdate : σ → String → List (String × Value) → List (String × Value) →
    Except ExecutionError (List Value) × σ
  dbDelete : σ → String → List (String × Value) →
    Except ExecutionError (List Value) × σ
  timeNow : String
  validatorFor : Value → Except String Validator
  jsonPathQuery : Value → String → Except String (List Value)
  debugFmt : Operator → String

/-- `Executor::eval_get`: context path lookup, `PathNotFound` on a miss. -/
def evalGet (ctx : Context) (path : String) : Except ExecutionError Value :=
  match Context.getPath ctx path with
  | some v => .ok v
  | none => .error (.pathNotFound path)

/-- `Executor::eval_jsonpath`: serialise the variable map (which cannot
fail for a map of JSON values) and run the JSONPath query, wrapping
matches in an array and failures in a custom error. -/
def evalJsonPath {σ : Type} (E : Executor σ) (ctx : Context) (path : String) :
    Except ExecutionError Value :=
  let contextJson := Value.object ctx
  match E.jsonPathQuery contextJson path with
  | .ok results => .ok (.array results)
  | .error e =>
      .error (.custom ("JSONPath query failed for \u0027" ++ path ++ "\u0027: " ++ e))

/-- `Executor::compare_values`: order only number/number (via `as_f64`)
and string/string pairs; anything else is a `TypeError`.  (The `None` and
NaN custom-error branches of the source are unreachable on the modelled
domain; see the header.) -/
def compareValues (left right : Value) (f : Ordering → Bool) :
    Except ExecutionError Value :=
  match left, right with
  | .number l, .number r => .ok (.bool (f (ratCmp l.asF64 r.asF64)))
  | .string l, .string r => .ok (.bool (f (strCmp l r)))
  | _, _ =>
      .error (.typeError "Cannot compare values of different types"
        (some (typeName left)) (some (typeName right)))

/-- Propagation of the `?` operator through the state-threading model:
on success continue with the value and the updated state, on error stop,
keeping the state reached so far. -/
def bindE {σ α β : Type} (r : Except ExecutionError α × σ)
    (f : α → σ → Except ExecutionError β × σ) : Except ExecutionError β × σ :=
  match r with
  | (.ok v, s1) => f v s1
  | (.error e, s1) => (.error e, s1)

mutual

/-- `Executor::eval`: literals evaluate to themselves; operator nodes are
dispatched.  The abstract database state `σ` is threaded explicitly
(interior mutability of the storage collaborator). -/
def eval {σ : Type} (E : Executor σ) (ctx : Context) (s : σ) :
    OperatorValue → Except ExecutionError Value × σ
  | .Literal v => (.ok v, s)
  | .Operator op => evalOperator E ctx s op
termination_by v => 2 * sizeOf v

/-- `Executor::eval_operator`: dispatch on the operator tag.  Tags without
a dedicated arm in the source fall to the catch-all
`Operator not yet implemented` custom error. -/
def evalOperator {σ : Type} (E : Executor σ) (ctx : Context) (s : σ) :
    Operator → Except ExecutionError Value × σ
  | .Get path => (evalGet ctx path, s)
  | .JsonPath path => (evalJsonPath E ctx path, s)
  | .If condition thenBranch elseBranch =>
    bindE (eval E ctx s condition) fun c s1 =>
      if isTruthy c then eval E ctx s1 thenBranch
      else evalElseBranch E ctx s1 elseBranch
  | .Merge objects => evalMergeObjects E ctx s objects []
  | .Exists value =>
    bindE (eval E ctx s value) fun v s1 => (.ok (.bool (!v.isNull)), s1)
  | .Now => (.ok (.string E.timeNow), s)
  | .Eq left right =>
    bindE (eval E ctx s left) fun lv s1 =>
      bindE (eval E ctx s1 right) fun rv s2 => (.ok (.bool (jsonEq lv rv)), s2)
  | .Ne left right =>
    bindE (eval E ctx s left) fun lv s1 =>
      bindE (eval E ctx s1 right) fun rv s2 => (.ok (.bool (!jsonEq lv rv)), s2)
  | .Gt left right =>
    bindE (eval E ctx s left) fun lv s1 =>
      bindE (eval E ctx s1 right) fun rv s2 =>
        (compareValues lv rv (fun c => c == .gt), s2)
  | .Gte left right =>
    bindE (eval E ctx s left) fun lv s1 =>
      bindE (eval E ctx s1 right) fun rv s2 =>
        (compareValues lv rv (fun c => c ≠ .lt), s2)
  | .Lt left right =>
    bindE (eval E ctx s left) fun lv s1 =>
      bindE (eval E ctx s1 right) fun rv s2 =>
        (compareValues lv rv (fun c => c == .lt), s2)
  | .Lte left right =>
    bindE (eval E ctx s left) fun lv s1 =>
      bindE (eval E ctx s1 right) fun rv s2 =>
        (compareValues lv rv (fun c => c ≠ .gt), s2)
  | .And conditions => evalAndConds E ctx s conditions
  | .Or conditions => evalOrConds E ctx s conditions
  | .Not condition =>
    bindE (eval E ctx s condition) fun v s1 => (.ok (.bool (!isTruthy v)), s1)
  | .Validate data schema onFail =>
    bindE (eval E ctx s data) fun d s1 =>
      applyValidator E ctx s1 d (E.validatorFor schema) onFail
  | .DbQuery collection filterOpt select limit skip sort =>
    evalDbQueryArm E ctx s collection select limit skip sort filterOpt
  | .DbInsert collection document _validate =>
    bindE (evalPairs E ctx s document) fun doc s1 =>
      bindE (E.dbInsert s1 collection doc) fun inserted s2 => (.ok inserted, s2)
  | .DbUpdate collection filter update _validate =>
    bindE (evalPairs E ctx s filter) fun f s1 =>
      bindE (evalPairs E ctx s1 update) fun u s2 =>
        bindE (E.dbUpdate s2 collection f u) fun updated s3 =>
          (.ok (.array updated), s3)
  | .DbDelete collection filter =>
    bindE (evalPairs E ctx s filter) fun f s1 =>
      bindE (E.dbDelete s1 collection f) fun deleted s2 =>
        (.ok (.array deleted), s2)
  | op => (.error (.custom ("Operator not yet implemented: " ++ E.debugFmt op)), s)
termination_by op => 2 * sizeOf op

/-- The else half of the `$if` arm: evaluate the else branch when
present, otherwise yield null. -/
def evalElseBranch {σ : Type} (E : Executor σ) (ctx : Context) (s1 : σ) :
    Option OperatorValue → Except ExecutionError Value × σ
  | some eb => eval E ctx s1 eb
  | none => (.ok .null, s1)
termination_by e => 2 * sizeOf e

/-- The body of the `$validate` arm after the data has been evaluated:
a schema-compile failure is a custom error; conforming data is returned
unchanged; otherwise the evaluated `onFail` is returned when present and
a `ValidationError` carrying `iter_errors` is raised when not. -/
def applyValidator {σ : Type} (E : Executor σ) (ctx : Context) (s1 : σ) (d : Value) :
    Except String Validator → Option OperatorValue → Except ExecutionError Value × σ
  | .error e, _ => (.error (.custom ("Failed to compile schema: " ++ e)), s1)
  | .ok validator, some onF =>
      if validator.isValid d then (.ok d, s1) else eval E ctx s1 onF
  | .ok validator, none =>
      if validator.isValid d then (.ok d, s1)
      else (.error (.validationError "Validation failed" (validator.iterErrors d)), s1)
termination_by _c f => 2 * sizeOf f + 1

/-- The `$dbQuery` arm: evaluate the filter values when a filter is
present, then call the storage collaborator and wrap the results. -/
def evalDbQueryArm {σ : Type} (E : Executor σ) (ctx : Context) (s : σ)
    (collection : String) (select : Option (List String))
    (limit skip : Option Nat) (sort : Option (List (String × SortOrder))) :
    Option (List (String × OperatorValue)) → Except ExecutionError Value × σ
  | some filterMap =>
    bindE (evalPairs E ctx s filterMap) fun f s1 =>
      bindE (E.dbQuery s1 collection (some f) select limit skip sort)
        fun results s2 => (.ok (.array results), s2)
  | none =>
    bindE (E.dbQuery s collection none select limit skip sort)
      fun results s2 => (.ok (.array results), s2)
termination_by fo => 2 * sizeOf fo + 1

/-- One step of the `$merge` loop once the element is evaluated: objects
fold their fields into the accumulator, anything else is a `TypeError`. -/
def evalMergeStep {σ : Type} (E : Executor σ) (ctx : Context) (s1 : σ)
    (rest : List OperatorValue) (acc : List (String × Value)) :
    Value → Except ExecutionError Value × σ
  | .object fields =>
      evalMergeObjects E ctx s1 rest
        (fields.foldl (fun m kv => mapInsert m kv.1 kv.2) acc)
  | v =>
      (.error (.typeError "Can only merge objects" (some "object")
        (some (typeName v))), s1)
termination_by _v => 2 * sizeOf rest + 1

/-- The `$and` loop: short-circuit on the first non-truthy condition, true
when the list is exhausted (vacuous truth). -/
def evalAndConds {σ : Type} (E : Executor σ) (ctx : Context) (s : σ) :
    List OperatorValue → Except ExecutionError Value × σ
  | [] => (.ok (.bool true), s)
  | condition :: rest =>
    bindE (eval E ctx s condition) fun v s1 =>
      if !isTruthy v then (.ok (.bool false), s1)
      else evalAndConds E ctx s1 rest
termination_by conds => 2 * sizeOf conds

/-- The `$or` loop: short-circuit on the first truthy condition, false
when the list is exhausted. -/
def evalOrConds {σ : Type} (E : Executor σ) (ctx : Context) (s : σ) :
    List OperatorValue → Except ExecutionError Value × σ
  | [] => (.ok (.bool false), s)
  | condition :: rest =>
    bindE (eval E ctx s condition) fun v s1 =>
      if isTruthy v then (.ok (.bool true), s1)
      else evalOrConds E ctx s1 rest
termination_by conds => 2 * sizeOf conds

/-- The `$merge` loop (`Executor::eval_merge`): evaluate each element,
require an object, and fold its fields into the accumulated result map. -/
def evalMergeObjects {σ : Type} (E : Executor σ) (ctx : Context) (s : σ) :
    List OperatorValue → List (String × Value) → Except ExecutionError Value × σ
  | [], acc => (.ok (.object acc), s)
  | objValue :: rest, acc =>
    bindE (eval E ctx s objValue) fun v s1 =>
      evalMergeStep E ctx s1 rest acc v
termination_by objs _acc => 2 * sizeOf objs

/-- The evaluation loops over `HashMap<String, OperatorValue>` payloads
(filter / document / update maps of the storage operators): evaluate each
value, keeping keys. -/
def evalPairs {σ : Type} (E : Executor σ) (ctx : Context) (s : σ) :
    List (String × OperatorValue) → Except ExecutionError (List (String × Value)) × σ
  | [] => (.ok [], s)
  | (k, ov) :: rest =>
    bindE (eval E ctx s ov) fun v s1 =>
      bindE (evalPairs E ctx s1 rest) fun vs s2 => (.ok ((k, v) :: vs), s2)
termination_by l => 2 * sizeOf l

end

/-! Step lemmas: one rewriting equation per evaluator arm.  The mutual
definition is compiled by well-founded recursion, so these equations are
derived once from `eq_def` and drive all later computation. -/

@[simp] theorem eval_Literal {σ : Type} (E : Executor σ) (ctx : Context) (s : σ)
    (v : Value) : eval E ctx s (.Literal v) = (.ok v, s) := by
  rw [eval.eq_def]

@[simp] theorem eval_Operator {σ : Type} (E : Executor σ) (ctx : Context) (s : σ)
    (op : Operator) : eval E ctx s (.Operator op) = evalOperator E ctx s op := by
  rw [eval.eq_def]

@[simp] theorem evalOperator_Get {σ : Type} (E : Executor σ) (ctx : Context) (s : σ)
    (path : String) : evalOperator E ctx s (.Get path) = (evalGet ctx path, s) := by
  rw [evalOperator.eq_def]

@[simp] theorem evalOperator_JsonPath {σ : Type} (E : Executor σ) (ctx : Context)
    (s : σ) (path : String) :
    evalOperator E ctx s (.JsonPath path) = (evalJsonPath E ctx path, s) := by
  rw [evalOperator.eq_def]

@[simp] theorem evalOperator_If {σ : Type} (E : Executor σ) (ctx : Context) (s : σ)
    (condition thenBranch : OperatorValue) (elseBranch : Option OperatorValue) :
    evalOperator E ctx s (.If condition thenBranch elseBranch) =
      bindE (eval E ctx s condition) (fun c s1 =>
        if isTruthy c then eval E ctx s1 thenBranch
        else evalElseBranch E ctx s1 elseBranch) := by
  rw [evalOperator.eq_def]

@[simp] theorem evalOperator_Merge {σ : Type} (E : Executor σ) (ctx : Context)
    (s : σ) (objects : List OperatorValue) :
    evalOperator E ctx s (.Merge objects) = evalMergeObjects E ctx s objects [] := by
  rw [evalOperator.eq_def]

@[simp] theorem evalOperator_Exists {σ : Type} (E : Executor σ) (ctx : Context)
    (s : σ) (value : OperatorValue) :
    evalOperator E ctx s (.Exists value) =
      bindE (eval E ctx s value) (fun v s1 => (.ok (.bool (!v.isNull)), s1)) := by
  rw [evalOperator.eq_def]

@[simp] theorem evalOperator_Now {σ : Type} (E : Executor σ) (ctx : Context)
    (s : σ) : evalOperator E ctx s .Now = (.ok (.string E.timeNow), s) := by
  rw [evalOperator.eq_def]

@[simp] theorem evalOperator_Eq {σ : Type} (E : Executor σ) (ctx : Context) (s : σ)
    (left right : OperatorValue) :
    evalOperator E ctx s (.Eq left right) =
      bindE (eval E ctx s left) (fun lv s1 =>
        bindE (eval E ctx s1 right) (fun rv s2 =>
          (.ok (.bool (jsonEq lv rv)), s2))) := by
  rw [evalOperator.eq_def]

@[simp] theorem evalOperator_Ne {σ : Type} (E : Executor σ) (ctx : Context) (s : σ)
    (left right : OperatorValue) :
    evalOperator E ctx s (.Ne left right) =
      bindE (eval E ctx s left) (fun lv s1 =>
        bindE (eval E ctx s1 right) (fun rv s2 =>
          (.ok (.bool (!jsonEq lv rv)), s2))) := by
  rw [evalOperator.eq_def]

@[simp] theorem evalOperator_Gt {σ : Type} (E : Executor σ) (ctx : Context) (s : σ)
    (left right : OperatorValue) :
    evalOperator E ctx s (.Gt left right) =
      bindE (eval E ctx s left) (fun lv s1 =>
        bindE (eval E ctx s1 right) (fun rv s2 =>
          (compareValues lv rv (fun c => c == .gt), s2))) := by
  rw [evalOperator.eq_def]

@[simp] theorem evalOperator_Gte {σ : Type} (E : Executor σ) (ctx : Context) (s : σ)
    (left right : OperatorValue) :
    evalOperator E ctx s (.Gte left right) =
      bindE (eval E ctx s left) (fun lv s1 =>
        bindE (eval E ctx s1 right) (fun rv s2 =>
          (compareValues lv rv (fun c => c ≠ .lt), s2))) := by
  rw [evalOperator.eq_def]

@[simp] theorem evalOperator_Lt {σ : Type} (E : Executor σ) (ctx : Context) (s : σ)
    (left right : OperatorValue) :
    evalOperator E ctx s (.Lt left right) =
      bindE (eval E ctx s left) (fun lv s1 =>
        bindE (eval E ctx s1 right) (fun rv s2 =>
          (compareValues lv rv (fun c => c == .lt), s2))) := by
  rw [evalOperator.eq_def]

@[simp] theorem evalOperator_Lte {σ : Type} (E : Executor σ) (ctx : Context) (s : σ)
    (left right : OperatorValue) :
    evalOperator E ctx s (.Lte left right) =
      bindE (eval E ctx s left) (fun lv s1 =>
        bindE (eval E ctx s1 right) (fun rv s2 =>
          (compareValues lv rv (fun c => c ≠ .gt), s2))) := by
  rw [evalOperator.eq_def]

@[simp] theorem evalOperator_And {σ : Type} (E : Executor σ) (ctx : Context) (s : σ)
    (conditions : List OperatorValue) :
    evalOperator E ctx s (.And conditions) = evalAndConds E ctx s conditions := by
  rw [evalOperator.eq_def]

@[simp] theorem evalOperator_Or {σ : Type} (E : Executor σ) (ctx : Context) (s : σ)
    (conditions : List OperatorValue) :
    evalOperator E ctx s (.Or conditions) = evalOrConds E ctx s conditions := by
  rw [evalOperator.eq_def]

@[simp] theorem evalOperator_Not {σ : Type} (E : Executor σ) (ctx : Context) (s : σ)
    (condition : OperatorValue) :
    evalOperator E ctx s (.Not condition) =
      bindE (eval E ctx s condition) (fun v s1 =>
        (.ok (.bool (!isTruthy v)), s1)) := by
  rw [evalOperator.eq_def]

@[simp] theorem evalOperator_Validate {σ : Type} (E : Executor σ) (ctx : Context)
    (s : σ) (data : OperatorValue) (schema : Value) (onFail : Option OperatorValue) :
    evalOperator E ctx s (.Validate data schema onFail) =
      bindE (eval E ctx s data) (fun d s1 =>
        applyValidator E ctx s1 d (E.validatorFor schema) onFail) := by
  rw [evalOperator.eq_def]

@[simp] theorem evalOperator_DbQuery {σ : Type} (E : Executor σ) (ctx : Context)
    (s : σ) (collection : String) (filterOpt : Option (List (String × OperatorValue)))
    (select : Option (List String)) (limit skip : Option Nat)
    (sort : Option (List (String × SortOrder))) :
    evalOperator E ctx s (.DbQuery collection filterOpt select limit skip sort) =
      evalDbQueryArm E ctx s collection select limit skip sort filterOpt := by
  rw [evalOperator.eq_def]

@[simp] theorem evalOperator_DbInsert {σ : Type} (E : Executor σ) (ctx : Context)
    (s : σ) (collection : String) (document : List (String × OperatorValue))
    (validate : Bool) :
    evalOperator E ctx s (.DbInsert collection document validate) =
      bindE (evalPairs E ctx s document) (fun doc s1 =>
        bindE (E.dbInsert s1 collection doc) (fun inserted s2 =>
          (.ok inserted, s2))) := by
  rw [evalOperator.eq_def]

@[simp] theorem evalOperator_DbUpdate {σ : Type} (E : Executor σ) (ctx : Context)
    (s : σ) (collection : String) (filter update : List (String × OperatorValue))
    (validate : Bool) :
    evalOperator E ctx s (.DbUpdate collection filter update validate) =
      bindE (evalPairs E ctx s filter) (fun f s1 =>
        bindE (evalPairs E ctx s1 update) (fun u s2 =>
          bindE (E.dbUpdate s2 collection f u) (fun updated s3 =>
            (.ok (.array updated), s3)))) := by
  rw [evalOperator.eq_def]

@[simp] theorem evalOperator_DbDelete {σ : Type} (E : Executor σ) (ctx : Context)
    (s : σ) (collection : String) (filter : List (String × OperatorValue)) :
    evalOperator E ctx s (.DbDelete collection filter) =
      bindE (evalPairs E ctx s filter) (fun f s1 =>
        bindE (E.dbDelete s1 collection f) (fun deleted s2 =>
          (.ok (.array deleted), s2))) := by
  rw [evalOperator.eq_def]

@[simp] theorem evalOperator_Return {σ : Type} (E : Executor σ) (ctx : Context)
    (s : σ) (status : Nat) (headers : List (String × OperatorValue))
    (body : OperatorValue) :
    evalOperator E ctx s (.Return status headers body) =
      (.error (.custom ("Operator not yet implemented: " ++
        E.debugFmt (.Return status headers body))), s) := by
  rw [evalOperator.eq_def]

@[simp] theorem evalElseBranch_some {σ : Type} (E : Executor σ) (ctx : Context)
    (s1 : σ) (eb : OperatorValue) :
    evalElseBranch E ctx s1 (some eb) = eval E ctx s1 eb := by
  rw [evalElseBranch.eq_def]

@[simp] theorem evalElseBranch_none {σ : Type} (E : Executor σ) (ctx : Context)
    (s1 : σ) : evalElseBranch E ctx s1 none = (.ok .null, s1) := by
  rw [evalElseBranch.eq_def]

@[simp] theorem applyValidator_compileError {σ : Type} (E : Executor σ)
    (ctx : Context) (s1 : σ) (d : Value) (e : String)
    (onFail : Option OperatorValue) :
    applyValidator E ctx s1 d (.error e) onFail =
      (.error (.custom ("Failed to compile schema: " ++ e)), s1) := by
  rw [applyValidator.eq_def]

@[simp] theorem applyValidator_some {σ : Type} (E : Executor σ) (ctx : Context)
    (s1 : σ) (d : Value) (validator : Validator) (onF : OperatorValue) :
    applyValidator E ctx s1 d (.ok validator) (some onF) =
      (if validator.isValid d then (.ok d, s1) else eval E ctx s1 onF) := by
  rw [applyValidator.eq_def]

@[simp] theorem applyValidator_none {σ : Type} (E : Executor σ) (ctx : Context)
    (s1 : σ) (d : Value) (validator : Validator) :
    applyValidator E ctx s1 d (.ok validator) none =
      (if validator.isValid d then (.ok d, s1)
       else (.error (.validationError "Validation failed"
         (validator.iterErrors d)), s1)) := by
  rw [applyValidator.eq_def]

@[simp] theorem evalDbQueryArm_some {σ : Type} (E : Executor σ) (ctx : Context)
    (s : σ) (collection : String) (select : Option (List String))
    (limit skip : Option Nat) (sort : Option (List (String × SortOrder)))
    (filterMap : List (String × OperatorValue)) :
    evalDbQueryArm E ctx s collection select limit skip sort (some filterMap) =
      bindE (evalPairs E ctx s filterMap) (fun f s1 =>
        bindE (E.dbQuery s1 collection (some f) select limit skip sort)
          (fun results s2 => (.ok (.array results), s2))) := by
  rw [evalDbQueryArm.eq_def]

@[simp] theorem evalDbQueryArm_none {σ : Type} (E : Executor σ) (ctx : Context)
    (s : σ) (collection : String) (select : Option (List String))
    (limit skip : Option Nat) (sort : Option (List (String × SortOrder))) :
    evalDbQueryArm E ctx s collection select limit skip sort none =
      bindE (E.dbQuery s collection none select limit skip sort)
        (fun results s2 => (.ok (.array results), s2)) := by
  rw [evalDbQueryArm.eq_def]

@[simp] theorem evalMergeStep_object {σ : Type} (E : Executor σ) (ctx : Context)
    (s1 : σ) (rest : List OperatorValue) (acc : List (String × Value))
    (fields : List (String × Value)) :
    evalMergeStep E ctx s1 rest acc (.object fields) =
      evalMergeObjects E ctx s1 rest
        (fields.foldl (fun m kv => mapInsert m kv.1 kv.2) acc) := by
  rw [evalMergeStep.eq_def]

@[simp] theorem evalAndConds_nil {σ : Type} (E : Executor σ) (ctx : Context)
    (s : σ) : evalAndConds E ctx s [] = (.ok (.bool true), s) := by
  rw [evalAndConds.eq_def]

@[simp] theorem evalAndConds_cons {σ : Type} (E : Executor σ) (ctx : Context)
    (s : σ) (condition : OperatorValue) (rest : List OperatorValue) :
    evalAndConds E ctx s (condition :: rest) =
      bindE (eval E ctx s condition) (fun v s1 =>
        if !isTruthy v then (.ok (.bool false), s1)
        else evalAndConds E ctx s1 rest) := by
  rw [evalAndConds.eq_def]

@[simp] theorem evalOrConds_nil {σ : Type} (E : Executor σ) (ctx : Context)
    (s : σ) : evalOrConds E ctx s [] = (.ok (.bool false), s) := by
  rw [evalOrConds.eq_def]

@[simp] theorem evalOrConds_cons {σ : Type} (E : Executor σ) (ctx : Context)
    (s : σ) (condition : OperatorValue) (rest : List OperatorValue) :
    evalOrConds E ctx s (condition :: rest) =
      bindE (eval E ctx s condition) (fun v s1 =>
        if isTruthy v then (.ok (.bool true), s1)
        else evalOrConds E ctx s1 rest) := by
  rw [evalOrConds.eq_def]

@[simp] theorem evalMergeObjects_nil {σ : Type} (E : Executor σ) (ctx : Context)
    (s : σ) (acc : List (String × Value)) :
    evalMergeObjects E ctx s [] acc = (.ok (.object acc), s) := by
  rw [evalMergeObjects.eq_def]

@[simp] theorem evalMergeObjects_cons {σ : Type} (E : Executor σ) (ctx : Context)
    (s : σ) (objValue : OperatorValue) (rest : List OperatorValue)
    (acc : List (String × Value)) :
    evalMergeObjects E ctx s (objValue :: rest) acc =
      bindE (eval E ctx s objValue) (fun v s1 =>
        evalMergeStep E ctx s1 rest acc v) := by
  rw [evalMergeObjects.eq_def]

@[simp] theorem evalPairs_nil {σ : Type} (E : Executor σ) (ctx : Context) (s : σ) :
    evalPairs E ctx s [] = (.ok [], s) := by
  rw [evalPairs.eq_def]

@[simp] theorem evalPairs_cons {σ : Type} (E : Executor σ) (ctx : Context) (s : σ)
    (k : String) (ov : OperatorValue) (rest : List (String × OperatorValue)) :
    evalPairs E ctx s ((k, ov) :: rest) =
      bindE (eval E ctx s ov) (fun v s1 =>
        bindE (evalPairs E ctx s1 rest) (fun vs s2 =>
          (.ok ((k, v) :: vs), s2))) := by
  rw [evalPairs.eq_def]

/-! Supporting lemmas about value equality and the comparison helpers. -/

@[simp] theorem Value.beq_nullE : Value.beq .null .null = true := by
  rw [Value.beq.eq_def]

@[simp] theorem Value.beq_boolE (a b : Bool) :
    Value.beq (.bool a) (.bool b) = (a == b) := by
  rw [Value.beq.eq_def]

@[simp] theorem Value.beq_numberE (a b : Number) :
    Value.beq (.number a) (.number b) = (a == b) := by
  rw [Value.beq.eq_def]

@[simp] theorem Value.beq_stringE (a b : String) :
    Value.beq (.string a) (.string b) = (a == b) := by
  rw [Value.beq.eq_def]

@[simp] theorem Value.beq_arrayE (a b : List Value) :
    Value.beq (.array a) (.array b) = Value.beqList a b := by
  rw [Value.beq.eq_def]

@[simp] theorem Value.beq_objectE (a b : List (String × Value)) :
    Value.beq (.object a) (.object b) = Value.beqFields a b := by
  rw [Value.beq.eq_def]

@[simp] theorem Value.beqList_nilE : Value.beqList [] [] = true := by
  rw [Value.beqList.eq_def]

@[simp] theorem Value.beqList_consE (x : Value) (xs : List Value) (y : Value)
    (ys : List Value) :
    Value.beqList (x :: xs) (y :: ys) = (Value.beq x y && Value.beqList xs ys) := by
  rw [Value.beqList.eq_def]

@[simp] theorem Value.beqFields_nilE : Value.beqFields [] [] = true := by
  rw [Value.beqFields.eq_def]

@[simp] theorem Value.beqFields_consE (k : String) (v : Value)
    (xs : List (String × Value)) (l : String) (w : Value)
    (ys : List (String × Value)) :
    Value.beqFields ((k, v) :: xs) ((l, w) :: ys) =
      (k == l && Value.beq v w && Value.beqFields xs ys) := by
  rw [Value.beqFields.eq_def]

theorem Value.beq_refl_bounded :
    ∀ (n : Nat) (v : Value), sizeOf v ≤ n → Value.beq v v = true := by
  intro n
  induction n with
  | zero =>
    intro v h
    exfalso
    cases v <;> simp at h
  | succ n ih =>
    intro v h
    cases v with
    | null => simp
    | bool b => simp
    | number a => simp
    | string s => simp
    | array xs =>
      simp only [Value.beq_arrayE]
      have hxs : ∀ x ∈ xs, sizeOf x ≤ n := by
        intro x hx
        have hlt := List.sizeOf_lt_of_mem hx
        simp only [Value.array.sizeOf_spec] at h
        omega
      clear h
      induction xs with
      | nil => simp
      | cons x rest ihl =>
        simp only [Value.beqList_consE, Bool.and_eq_true]
        refine ⟨ih x (hxs x (by simp)), ?_⟩
        exact ihl fun y hy => hxs y (by simp [hy])
    | object fs =>
      simp only [Value.beq_objectE]
      have hfs : ∀ f ∈ fs, sizeOf f.2 ≤ n := by
        intro f hf
        have hlt := List.sizeOf_lt_of_mem hf
        obtain ⟨k, v⟩ := f
        simp only [Value.object.sizeOf_spec] at h
        simp only [Prod.mk.sizeOf_spec] at hlt
        simp only
        omega
      clear h
      induction fs with
      | nil => simp
      | cons f rest ihl =>
        obtain ⟨k, v⟩ := f
        simp only [Value.beqFields_consE, Bool.and_eq_true, beq_self_eq_true,
          true_and]
        refine ⟨ih v (hfs (k, v) (by simp)), ?_⟩
        exact ihl fun g hg => hfs g (by simp [hg])

theorem Value.beq_refl (v : Value) : Value.beq v v = true :=
  Value.beq_refl_bounded (sizeOf v) v le_rfl

theorem jsonEq_refl (v : Value) : jsonEq v v = true := by
  simpa [jsonEq] using Value.beq_refl v.canon

theorem canon_number (a : Number) : Value.canon (.number a) = .number a := by
  rw [Value.canon.eq_def]

theorem canon_string (s : String) : Value.canon (.string s) = .string s := by
  rw [Value.canon.eq_def]

theorem jsonEq_number (a b : Number) : jsonEq (.number a) (.number b) = (a == b) := by
  simp only [jsonEq, canon_number, Value.beq_numberE]

theorem jsonEq_string (a b : String) : jsonEq (.string a) (.string b) = (a == b) := by
  simp only [jsonEq, canon_string, Value.beq_stringE]

theorem ratCmp_eq_iff (a b : ℚ) : ratCmp a b = .eq ↔ a = b := by
  unfold ratCmp
  split_ifs with h1 h2
  · simp [ne_of_lt h1]
  · simp [(ne_of_lt h2).symm]
  · simp [le_antisymm (not_lt.mp h2) (not_lt.mp h1)]

theorem ratCmp_gt_iff (a b : ℚ) : ratCmp a b = .gt ↔ b < a := by
  unfold ratCmp
  split_ifs with h1 h2
  · simp
    exact le_of_lt h1
  · simp [h2]
  · simp [h2]

theorem ratCmp_lt_iff (a b : ℚ) : ratCmp a b = .lt ↔ a < b := by
  unfold ratCmp
  split_ifs with h1 h2
  · simp [h1]
  · simp [h1]
  · simp [h1]

theorem charCmp_eq_iff (a b : Char) : charCmp a b = .eq ↔ a = b := by
  unfold charCmp
  split_ifs with h1 h2
  · simp
    intro he
    rw [he] at h1
    exact absurd h1 (Nat.lt_irrefl _)
  · simp
    intro he
    rw [he] at h2
    exact absurd h2 (Nat.lt_irrefl _)
  · simp
    have hn : a.toNat = b.toNat := Nat.le_antisymm (Nat.not_lt.mp h2) (Nat.not_lt.mp h1)
    exact Char.ofNat_toNat a ▸ Char.ofNat_toNat b ▸ congrArg Char.ofNat hn

theorem charListCmp_eq_iff :
    ∀ (xs ys : List Char), charListCmp xs ys = .eq ↔ xs = ys := by
  intro xs
  induction xs with
  | nil =>
    intro ys
    cases ys <;> simp [charListCmp]
  | cons x rest ih =>
    intro ys
    cases ys with
    | nil => simp [charListCmp]
    | cons y yrest =>
      simp only [charListCmp]
      cases hc : charCmp x y with
      | lt =>
        have hne : x ≠ y := fun he => by
          rw [he, (charCmp_eq_iff y y).mpr rfl] at hc
          exact Ordering.noConfusion hc
        simp [hne]
      | gt =>
        have hne : x ≠ y := fun he => by
          rw [he, (charCmp_eq_iff y y).mpr rfl] at hc
          exact Ordering.noConfusion hc
        simp [hne]
      | eq =>
        have hxy : x = y := (charCmp_eq_iff x y).mp hc
        subst hxy
        simp [ih]

theorem strCmp_eq_iff (a b : String) : strCmp a b = .eq ↔ a = b := by
  unfold strCmp
  rw [charListCmp_eq_iff]
  constructor
  · intro h
    cases a
    cases b
    exact congrArg String.mk h
  · intro h
    rw [h]

/-! Claim theorems. -/

/-- A concrete executor over a trivial storage state, used to instantiate
universally quantified claim theorems at concrete inputs. -/
def unitExecutor : Executor Unit where
  dbQuery := fun s _ _ _ _ _ _ => (.ok [], s)
  dbInsert := fun s _ d => (.ok (Value.object (buildDoc d)), s)
  dbUpdate := fun s _ _ _ => (.ok [], s)
  dbDelete := fun s _ _ => (.ok [], s)
  timeNow := "2025-01-01T00:00:00Z"
  validatorFor := fun _ => .error "unsupported"
  jsonPathQuery := fun _ _ => .ok []
  debugFmt := fun _ => "op"

/-- C1 (amended): the evaluator does not implement `$return`.  For every
context, state and `$return` node, dispatch falls to the catch-all arm and
yields the `Custom` "Operator not yet implemented" error — without
evaluating the body or any header value — and a `Custom` error is never
the `EarlyReturn` variant.  `EarlyReturn` exists in the error taxonomy but
is raised by no operator. -/
theorem return_operator_not_implemented :
    ∀ (σ : Type) (E : Executor σ) (ctx : Context) (s : σ) (status : Nat)
      (headers : List (String × OperatorValue)) (body : OperatorValue),
      evalOperator E ctx s (.Return status headers body) =
        (.error (.custom ("Operator not yet implemented: " ++
          E.debugFmt (.Return status headers body))), s) ∧
      (∀ m : String, (ExecutionError.custom m).isEarlyReturn = false) := by
  intro σ E ctx s status headers body
  exact ⟨by simp, fun m => rfl⟩

/-- C1 counterexample: evaluating a concrete `$return {status: 404,
body: null}` node yields the `Custom` not-implemented error, not
`EarlyReturn`. -/
theorem return_operator_counterexample :
    evalOperator unitExecutor [] () (.Return 404 [] (.Literal .null)) =
      (.error (.custom "Operator not yet implemented: op"), ()) ∧
    (ExecutionError.custom "Operator not yet implemented: op").isEarlyReturn
      = false := by
  exact ⟨by simp [unitExecutor], rfl⟩

/-- C5: `$exists` evaluates its argument and maps a produced value `v` to
the boolean `v` is non-null; an error raised while evaluating the
argument (in particular `PathNotFound` from a `$get` on a missing path)
propagates unchanged instead of being swallowed into `false`. -/
theorem exists_nonnull_and_propagates :
    ∀ (σ : Type) (E : Executor σ) (ctx : Context) (s : σ) (inner : OperatorValue),
      (∀ (v : Value) (s1 : σ), eval E ctx s inner = (.ok v, s1) →
        evalOperator E ctx s (.Exists inner) = (.ok (.bool (!v.isNull)), s1)) ∧
      (∀ (v : Value), (!v.isNull) = true ↔ v ≠ .null) ∧
      (∀ (e : ExecutionError) (s1 : σ), eval E ctx s inner = (.error e, s1) →
        evalOperator E ctx s (.Exists inner) = (.error e, s1)) ∧
      (∀ (p : String), Context.getPath ctx p = none →
        evalOperator E ctx s (.Exists (.Operator (.Get p))) =
          (.error (.pathNotFound p), s)) := by
  intro σ E ctx s inner
  refine ⟨?_, ?_, ?_, ?_⟩
  · intro v s1 h
    simp [h, bindE]
  · intro v
    cases v <;> simp [Value.isNull]
  · intro e s1 h
    simp [h, bindE]
  · intro p h
    simp [evalGet, h, bindE]

/-- C5 witness: `$exists` of a null literal is false, and `$exists` of a
`$get` on a missing path raises `PathNotFound` instead of returning
false. -/
theorem exists_nonnull_witness :
    evalOperator unitExecutor [("x", Value.string "a")] ()
      (.Exists (.Literal .null)) = (.ok (.bool false), ()) ∧
    evalOperator unitExecutor [("x", Value.string "a")] ()
      (.Exists (.Operator (.Get "missing"))) =
        (.error (.pathNotFound "missing"), ()) := by
  have h := exists_nonnull_and_propagates Unit unitExecutor
    [("x", Value.string "a")] () (.Literal .null)
  constructor
  · exact h.1 .null () (by simp)
  · exact h.2.2.2 "missing" rfl

/-- A run of condition evaluations that all produce truthy values,
threading the storage state from `s` to the final state. -/
inductive TruthyChain {σ : Type} (E : Executor σ) (ctx : Context) :
    σ → List OperatorValue → σ → Prop where
  | nil (s : σ) : TruthyChain E ctx s [] s
  | cons {s s1 s2 : σ} {c : OperatorValue} (v : Value)
      {rest : List OperatorValue} :
      eval E ctx s c = (.ok v, s1) → isTruthy v = true →
      TruthyChain E ctx s1 rest s2 → TruthyChain E ctx s (c :: rest) s2

/-- A run of condition evaluations that all produce non-truthy values,
threading the storage state from `s` to the final state. -/
inductive FalsyChain {σ : Type} (E : Executor σ) (ctx : Context) :
    σ → List OperatorValue → σ → Prop where
  | nil (s : σ) : FalsyChain E ctx s [] s
  | cons {s s1 s2 : σ} {c : OperatorValue} (v : Value)
      {rest : List OperatorValue} :
      eval E ctx s c = (.ok v, s1) → isTruthy v = false →
      FalsyChain E ctx s1 rest s2 → FalsyChain E ctx s (c :: rest) s2

theorem evalAndConds_append_of_truthy {σ : Type} {E : Executor σ} {ctx : Context}
    {s s1 : σ} {pre : List OperatorValue} (h : TruthyChain E ctx s pre s1) :
    ∀ l, evalAndConds E ctx s (pre ++ l) = evalAndConds E ctx s1 l := by
  induction h with
  | nil => intro l; rfl
  | cons v heval htruthy _ ih =>
    intro l
    simp only [List.cons_append, evalAndConds_cons, heval, bindE, htruthy]
    simpa using ih l

theorem evalOrConds_append_of_falsy {σ : Type} {E : Executor σ} {ctx : Context}
    {s s1 : σ} {pre : List OperatorValue} (h : FalsyChain E ctx s pre s1) :
    ∀ l, evalOrConds E ctx s (pre ++ l) = evalOrConds E ctx s1 l := by
  induction h with
  | nil => intro l; rfl
  | cons v heval hfalsy _ ih =>
    intro l
    simp only [List.cons_append, evalOrConds_cons, heval, bindE, hfalsy]
    simpa using ih l

/-- C3: `$and` walks its conditions strictly left to right: after a
prefix of truthy conditions, the first non-truthy condition makes the
whole `$and` return `false` at that point, for every tail `rest` — the
tail (which may contain subtrees that would raise, such as a `$get` on a
missing path) is never evaluated and cannot raise; when every condition
is truthy `$and` returns `true`, and the empty list returns `true`.
`$or` is symmetric: the first truthy condition after a non-truthy prefix
returns `true` ignoring the tail, an all-non-truthy list returns `false`,
and the empty list returns `false`. -/
theorem and_or_short_circuit :
    ∀ (σ : Type) (E : Executor σ) (ctx : Context) (s : σ),
      (evalOperator E ctx s (.And []) = (.ok (.bool true), s)) ∧
      (evalOperator E ctx s (.Or []) = (.ok (.bool false), s)) ∧
      (∀ (conds : List OperatorValue) (s1 : σ), TruthyChain E ctx s conds s1 →
        evalOperator E ctx s (.And conds) = (.ok (.bool true), s1)) ∧
      (∀ (pre : List OperatorValue) (s1 : σ) (x : OperatorValue) (v : Value)
          (s2 : σ) (rest : List OperatorValue),
        TruthyChain E ctx s pre s1 → eval E ctx s1 x = (.ok v, s2) →
        isTruthy v = false →
        evalOperator E ctx s (.And (pre ++ x :: rest)) = (.ok (.bool false), s2)) ∧
      (∀ (conds : List OperatorValue) (s1 : σ), FalsyChain E ctx s conds s1 →
        evalOperator E ctx s (.Or conds) = (.ok (.bool false), s1)) ∧
      (∀ (pre : List OperatorValue) (s1 : σ) (x : OperatorValue) (v : Value)
          (s2 : σ) (rest : List OperatorValue),
        FalsyChain E ctx s pre s1 → eval E ctx s1 x = (.ok v, s2) →
        isTruthy v = true →
        evalOperator E ctx s (.Or (pre ++ x :: rest)) = (.ok (.bool true), s2)) := by
  intro σ E ctx s
  refine ⟨by simp, by simp, ?_, ?_, ?_, ?_⟩
  · intro conds s1 h
    have := evalAndConds_append_of_truthy h []
    simpa using this
  · intro pre s1 x v s2 rest hpre heval hfalse
    have := evalAndConds_append_of_truthy hpre (x :: rest)
    simp only [evalOperator_And, this, evalAndConds_cons, heval, bindE, hfalse]
    simp
  · intro conds s1 h
    have := evalOrConds_append_of_falsy h []
    simpa using this
  · intro pre s1 x v s2 rest hpre heval htrue
    have := evalOrConds_append_of_falsy hpre (x :: rest)
    simp only [evalOperator_Or, this, evalOrConds_cons, heval, bindE, htrue]
    simp

/-- C3 witness: `$and([false, $get("missing")])` returns `false` and
`$or([true, $get("missing")])` returns `true` on an empty context — the
`$get` on a missing path is never evaluated, so no `PathNotFound` is
raised — and the vacuous cases hold. -/
theorem and_or_short_circuit_witness :
    evalOperator unitExecutor [] ()
      (.And [.Literal (.bool false), .Operator (.Get "missing")]) =
        (.ok (.bool false), ()) ∧
    evalOperator unitExecutor [] ()
      (.Or [.Literal (.bool true), .Operator (.Get "missing")]) =
        (.ok (.bool true), ()) ∧
    evalOperator unitExecutor [] () (.And []) = (.ok (.bool true), ()) ∧
    evalOperator unitExecutor [] () (.Or []) = (.ok (.bool false), ()) := by
  have h := and_or_short_circuit Unit unitExecutor [] ()
  refine ⟨?_, ?_, h.1, h.2.1⟩
  · exact h.2.2.2.1 [] () (.Literal (.bool false)) (.bool false) ()
      [.Operator (.Get "missing")] (.nil ()) (by simp) rfl
  · exact h.2.2.2.2.2 [] () (.Literal (.bool true)) (.bool true) ()
      [.Operator (.Get "missing")] (.nil ()) (by simp) rfl

/-- C2 (amended): on number pairs the ordering operators go through
`as_f64`, so for every pair exactly one of `$gt`, `$lt`, numeric equality
of the `as_f64` images holds, and `$gte` is true iff `$gt` is true or the
images are numerically equal; `$eq` is serde_json's structural equality,
which implies numeric equality but is representation-sensitive, so on a
pair that is numerically equal across representations (integer `1` vs
float `1.0`) none of `$gt`, `$eq`, `$lt` is true.  On string pairs the
original claim holds verbatim: exactly one of `$gt`, `$eq`, `$lt` is
true and `$gte` iff `$gt` or `$eq`. -/
theorem comparison_totality_amended :
    ∀ (σ : Type) (E : Executor σ) (ctx : Context) (s : σ),
      (∀ a b : Number,
        evalOperator E ctx s (.Gt (.Literal (.number a)) (.Literal (.number b))) =
          (.ok (.bool (ratCmp a.asF64 b.asF64 == .gt)), s) ∧
        evalOperator E ctx s (.Lt (.Literal (.number a)) (.Literal (.number b))) =
          (.ok (.bool (ratCmp a.asF64 b.asF64 == .lt)), s) ∧
        evalOperator E ctx s (.Gte (.Literal (.number a)) (.Literal (.number b))) =
          (.ok (.bool (decide (ratCmp a.asF64 b.asF64 ≠ .lt))), s) ∧
        evalOperator E ctx s (.Eq (.Literal (.number a)) (.Literal (.number b))) =
          (.ok (.bool (a == b)), s) ∧
        ((if ratCmp a.asF64 b.asF64 = .gt then 1 else 0) +
          (if ratCmp a.asF64 b.asF64 = .lt then 1 else 0) +
          (if a.asF64 = b.asF64 then 1 else 0) = 1) ∧
        (decide (ratCmp a.asF64 b.asF64 ≠ .lt) =
          ((ratCmp a.asF64 b.asF64 == .gt) || decide (a.asF64 = b.asF64))) ∧
        ((a == b) = true → a.asF64 = b.asF64)) ∧
      (∀ x y : String,
        evalOperator E ctx s (.Gt (.Literal (.string x)) (.Literal (.string y))) =
          (.ok (.bool (strCmp x y == .gt)), s) ∧
        evalOperator E ctx s (.Lt (.Literal (.string x)) (.Literal (.string y))) =
          (.ok (.bool (strCmp x y == .lt)), s) ∧
        evalOperator E ctx s (.Gte (.Literal (.string x)) (.Literal (.string y))) =
          (.ok (.bool (decide (strCmp x y ≠ .lt))), s) ∧
        evalOperator E ctx s (.Eq (.Literal (.string x)) (.Literal (.string y))) =
          (.ok (.bool (x == y)), s) ∧
        ((if strCmp x y = .gt then 1 else 0) +
          (if strCmp x y = .lt then 1 else 0) +
          (if x = y then 1 else 0) = 1) ∧
        (decide (strCmp x y ≠ .lt) = ((strCmp x y == .gt) || (x == y)))) := by
  intro σ E ctx s
  constructor
  · intro a b
    refine ⟨by simp [bindE, compareValues], by simp [bindE, compareValues],
      by simp [bindE, compareValues], by simp [bindE, jsonEq_number], ?_, ?_, ?_⟩
    · rcases lt_trichotomy a.asF64 b.asF64 with h | h | h
      · have h1 : ratCmp a.asF64 b.asF64 = .lt := (ratCmp_lt_iff _ _).mpr h
        simp [h1, ne_of_lt h]
      · have h1 : ratCmp a.asF64 b.asF64 = .eq := (ratCmp_eq_iff _ _).mpr h
        simp [h1, h, ratCmp_gt_iff, ratCmp_lt_iff]
      · have h1 : ratCmp a.asF64 b.asF64 = .gt := (ratCmp_gt_iff _ _).mpr h
        simp [h1, (ne_of_lt h).symm]
    · rcases lt_trichotomy a.asF64 b.asF64 with h | h | h
      · have h1 : ratCmp a.asF64 b.asF64 = .lt := (ratCmp_lt_iff _ _).mpr h
        simp [h1, ne_of_lt h]
        decide
      · have h1 : ratCmp a.asF64 b.asF64 = .eq := (ratCmp_eq_iff _ _).mpr h
        simp [h1, h, ratCmp_lt_iff]
      · have h1 : ratCmp a.asF64 b.asF64 = .gt := (ratCmp_gt_iff _ _).mpr h
        simp [h1]
        exact Or.inl (by decide)
    · intro h
      have : a = b := by
        have := beq_iff_eq (a := a) (b := b)
        rw [← this]
        exact h
      rw [this]
  · intro x y
    refine ⟨by simp [bindE, compareValues], by simp [bindE, compareValues],
      by simp [bindE, compareValues], by simp [bindE, jsonEq_string], ?_, ?_⟩
    · cases h : strCmp x y with
      | lt =>
        have hne : x ≠ y := fun he => by
          rw [he, (strCmp_eq_iff y y).mpr rfl] at h
          exact Ordering.noConfusion h
        simp [h, hne]
      | eq =>
        have hxy : x = y := (strCmp_eq_iff x y).mp h
        simp [h, hxy]
      | gt =>
        have hne : x ≠ y := fun he => by
          rw [he, (strCmp_eq_iff y y).mpr rfl] at h
          exact Ordering.noConfusion h
        simp [h, hne]
    · cases h : strCmp x y with
      | lt =>
        have hne : x ≠ y := fun he => by
          rw [he, (strCmp_eq_iff y y).mpr rfl] at h
          exact Ordering.noConfusion h
        simp [h, hne]
        decide
      | eq =>
        have hxy : x = y := (strCmp_eq_iff x y).mp h
        simp [h, hxy]
      | gt =>
        simp [h]
        exact Or.inl (by decide)

/-- C2 counterexample: for the numerically equal pair `1` (integer) and
`1.0` (float), `$gt`, `$eq` and `$lt` are all false — so "exactly one of
gt, eq, lt" fails — while `$gte` is true although neither `$gt` nor `$eq`
is. -/
theorem comparison_totality_counterexample :
    evalOperator unitExecutor [] ()
      (.Gt (.Literal (.number (.PosInt 1))) (.Literal (.number (.Float 1)))) =
        (.ok (.bool false), ()) ∧
    evalOperator unitExecutor [] ()
      (.Eq (.Literal (.number (.PosInt 1))) (.Literal (.number (.Float 1)))) =
        (.ok (.bool false), ()) ∧
    evalOperator unitExecutor [] ()
      (.Lt (.Literal (.number (.PosInt 1))) (.Literal (.number (.Float 1)))) =
        (.ok (.bool false), ()) ∧
    evalOperator unitExecutor [] ()
      (.Gte (.Literal (.number (.PosInt 1))) (.Literal (.number (.Float 1)))) =
        (.ok (.bool true), ()) := by
  refine ⟨?_, ?_, ?_, ?_⟩ <;>
    simp [bindE, compareValues, jsonEq_number, ratCmp, Number.asF64] <;>
    decide

/-- C2 witness: the amended theorem instantiated at the numbers `2 < 3`
and the strings `"a" < "b"`. -/
theorem comparison_totality_witness :
    evalOperator unitExecutor [] ()
      (.Gt (.Literal (.number (.PosInt 2))) (.Literal (.number (.PosInt 3)))) =
        (.ok (.bool false), ()) ∧
    evalOperator unitExecutor [] ()
      (.Lt (.Literal (.string "a")) (.Literal (.string "b"))) =
        (.ok (.bool true), ()) := by
  have h := comparison_totality_amended Unit unitExecutor [] ()
  constructor
  · have h1 := (h.1 (.PosInt 2) (.PosInt 3)).1
    rw [h1]
    simp [ratCmp, Number.asF64]
    decide
  · have h2 := (h.2 "a" "b").2.1
    rw [h2]
    simp [strCmp, charListCmp, charCmp]
    decide

/-- C4: `$validate` first evaluates `data` (propagating its errors); when
the schema fails to compile the result is the `Custom` "Failed to compile
schema" error (not `ValidationError`); when the evaluated data conforms it
is returned unchanged; when it does not conform the evaluated `onFail` is
returned if present, and otherwise a `ValidationError` carrying the
individual violations from `iter_errors` is raised. -/
theorem validate_behavior :
    ∀ (σ : Type) (E : Executor σ) (ctx : Context) (s : σ)
      (data : OperatorValue) (schema : Value),
      (∀ (onFail : Option OperatorValue) (e : ExecutionError) (s1 : σ),
        eval E ctx s data = (.error e, s1) →
        evalOperator E ctx s (.Validate data schema onFail) = (.error e, s1)) ∧
      (∀ (onFail : Option OperatorValue) (d : Value) (s1 : σ) (msg : String),
        eval E ctx s data = (.ok d, s1) →
        E.validatorFor schema = .error msg →
        evalOperator E ctx s (.Validate data schema onFail) =
          (.error (.custom ("Failed to compile schema: " ++ msg)), s1) ∧
        (ExecutionError.custom ("Failed to compile schema: " ++ msg)).isCustom
          = true) ∧
      (∀ (onFail : Option OperatorValue) (d : Value) (s1 : σ)
          (validator : Validator),
        eval E ctx s data = (.ok d, s1) →
        E.validatorFor schema = .ok validator →
        validator.isValid d = true →
        evalOperator E ctx s (.Validate data schema onFail) = (.ok d, s1)) ∧
      (∀ (d : Value) (s1 : σ) (validator : Validator) (onF : OperatorValue),
        eval E ctx s data = (.ok d, s1) →
        E.validatorFor schema = .ok validator →
        validator.isValid d = false →
        evalOperator E ctx s (.Validate data schema (some onF)) =
          eval E ctx s1 onF) ∧
      (∀ (d : Value) (s1 : σ) (validator : Validator),
        eval E ctx s data = (.ok d, s1) →
        E.validatorFor schema = .ok validator →
        validator.isValid d = false →
        evalOperator E ctx s (.Validate data schema none) =
          (.error (.validationError "Validation failed"
            (validator.iterErrors d)), s1)) := by
  intro σ E ctx s data schema
  refine ⟨?_, ?_, ?_, ?_, ?_⟩
  · intro onFail e s1 h
    simp [h, bindE]
  · intro onFail d s1 msg h hv
    refine ⟨?_, rfl⟩
    cases onFail <;> simp [h, hv, bindE]
  · intro onFail d s1 validator h hv hvalid
    cases onFail <;> simp [h, hv, hvalid, bindE]
  · intro d s1 validator onF h hv hinvalid
    simp [h, hv, hinvalid, bindE]
  · intro d s1 validator h hv hinvalid
    simp [h, hv, hinvalid, bindE]

/-- A concrete executor whose schema compiler accepts exactly the schema
`true` (compiling it to a validator that accepts exactly null values) and
rejects every other schema document. -/
def validateWitnessExecutor : Executor Unit :=
  { unitExecutor with
    validatorFor := fun sch =>
      match sch with
      | .bool true => .ok ⟨fun d => d.isNull, fun _ => ["must be null"]⟩
      | _ => .error "bad" }

/-- C4 witness: conforming data is returned unchanged; non-conforming
data evaluates `onFail` when present and raises `ValidationError` with
the violation list when not; a schema-compile failure is the custom
error. -/
theorem validate_behavior_witness :
    evalOperator validateWitnessExecutor [] ()
      (.Validate (.Literal .null) (.bool true) none) = (.ok .null, ()) ∧
    evalOperator validateWitnessExecutor [] ()
      (.Validate (.Literal (.bool false)) (.bool true)
        (some (.Literal (.string "fallback")))) =
      (.ok (.string "fallback"), ()) ∧
    evalOperator validateWitnessExecutor [] ()
      (.Validate (.Literal (.bool false)) (.bool true) none) =
      (.error (.validationError "Validation failed" ["must be null"]), ()) ∧
    evalOperator validateWitnessExecutor [] ()
      (.Validate (.Literal .null) .null none) =
      (.error (.custom "Failed to compile schema: bad"), ()) := by
  have h := validate_behavior Unit validateWitnessExecutor [] ()
  refine ⟨?_, ?_, ?_, ?_⟩
  · exact (h (.Literal .null) (.bool true)).2.2.1 none .null ()
      ⟨fun d => d.isNull, fun _ => ["must be null"]⟩ (by simp) rfl rfl
  · have := (h (.Literal (.bool false)) (.bool true)).2.2.2.1
      (.bool false) () ⟨fun d => d.isNull, fun _ => ["must be null"]⟩
      (.Literal (.string "fallback")) (by simp) rfl rfl
    rw [this]
    simp
  · exact (h (.Literal (.bool false)) (.bool true)).2.2.2.2
      (.bool false) () ⟨fun d => d.isNull, fun _ => ["must be null"]⟩
      (by simp) rfl rfl
  · exact ((h (.Literal .null) .null).2.1 none .null () "bad"
      (by simp) rfl).1

/-- C6 (amended): `get_path` splits the path on dots, descends objects by
key and arrays by parsed non-negative base-10 integer index, returns the
intermediate value when components run out, and fails on a leftover
component at a non-container.  Empty components are not special-cased:
they are looked up like any other key, so they yield not-found on arrays
(the empty string parses as no index) and on objects without an
empty-string key — but an object that does carry an empty-string key is
found (see the counterexample). -/
theorem get_path_descent :
    (∀ v : Value, descendPath v [] = some v) ∧
    (∀ (fields : List (String × Value)) (part : String) (rest : List String),
      descendPath (.object fields) (part :: rest) =
        (mapGet fields part).bind (fun w => descendPath w rest)) ∧
    (∀ (xs : List Value) (part : String) (rest : List String),
      descendPath (.array xs) (part :: rest) =
        ((parseUsize part).bind (fun i => xs.get? i)).bind
          (fun w => descendPath w rest)) ∧
    (∀ (part : String) (rest : List String),
      descendPath .null (part :: rest) = none ∧
      (∀ b, descendPath (.bool b) (part :: rest) = none) ∧
      (∀ n, descendPath (.number n) (part :: rest) = none) ∧
      (∀ str, descendPath (.string str) (part :: rest) = none)) ∧
    (parseUsize "" = none) ∧
    (∀ (xs : List Value) (rest : List String),
      descendPath (.array xs) ("" :: rest) = none) ∧
    (∀ (fields : List (String × Value)) (rest : List String),
      mapGet fields "" = none →
      descendPath (.object fields) ("" :: rest) = none) ∧
    (∀ (ctx : Context) (path : String) (rest : List String),
      splitDots path.data = "" :: rest → mapGet ctx "" = none →
      Context.getPath ctx path = none) := by
  refine ⟨?_, ?_, ?_, ?_, ?_, ?_, ?_, ?_⟩
  · intro v
    cases v <;> rfl
  · intro fields part rest
    rfl
  · intro xs part rest
    rfl
  · intro part rest
    exact ⟨rfl, fun b => rfl, fun n => rfl, fun str => rfl⟩
  · rfl
  · intro xs rest
    have hp : parseUsize "" = none := rfl
    simp [descendPath, hp]
  · intro fields rest h
    simp [descendPath, h]
  · intro ctx path rest hsplit hroot
    simp [Context.getPath, hsplit, hroot]

/-- C6 counterexample: the path `"a."` contains an empty (trailing-dot)
component, yet on a context binding `a` to an object with an empty-string
key the lookup succeeds instead of yielding not-found. -/
theorem get_path_empty_component_counterexample :
    Context.getPath [("a", Value.object [("", Value.number (.PosInt 1))])] "a." =
      some (Value.number (.PosInt 1)) := by
  rfl

/-- C6 witness: a two-level object descent, an array-index descent, a
short path returning the intermediate object, descent through a
non-container failing, and an empty component on an object without an
empty key failing. -/
theorem get_path_descent_witness :
    Context.getPath [("user", Value.object [("email", Value.string "a@x")])]
      "user.email" = some (Value.string "a@x") ∧
    Context.getPath [("items", Value.array [Value.string "first"])] "items.0" =
      some (Value.string "first") ∧
    Context.getPath [("user", Value.object [("email", Value.string "a@x")])]
      "user" = some (Value.object [("email", Value.string "a@x")]) ∧
    Context.getPath [("count", Value.number (.PosInt 42))] "count.x" = none ∧
    descendPath (Value.object [("k", Value.null)]) [""] = none := by
  have h := get_path_descent
  refine ⟨by rfl, by rfl, ?_, by rfl, ?_⟩
  · have h1 := h.1 (Value.object [("email", Value.string "a@x")])
    show (mapGet [("user", Value.object [("email", Value.string "a@x")])]
      "user").bind (fun v => descendPath v []) = _
    rw [show mapGet [("user", Value.object [("email", Value.string "a@x")])]
      "user" = some (Value.object [("email", Value.string "a@x")]) from rfl]
    simpa using h1
  · exact h.2.2.2.2.2.2.1 [("k", Value.null)] [] rfl

theorem mapContains_mapInsert_self (m : List (String × Value)) (k : String)
    (v : Value) : mapContains (mapInsert m k v) k = true := by
  induction m with
  | nil => simp [mapInsert, mapContains]
  | cons p rest ih =>
    obtain ⟨l, w⟩ := p
    by_cases h : l = k
    · simp [mapInsert, mapContains, h]
    · simp [mapInsert, mapContains, h, ih]

theorem mapGet_mapInsert_self (m : List (String × Value)) (k : String)
    (v : Value) : mapGet (mapInsert m k v) k = some v := by
  induction m with
  | nil => simp [mapInsert, mapGet]
  | cons p rest ih =>
    obtain ⟨l, w⟩ := p
    by_cases h : l = k
    · simp [mapInsert, mapGet, h]
    · simp [mapInsert, mapGet, h, ih]

theorem mapContains_of_mapGet {m : List (String × Value)} {k : String}
    {v : Value} (h : mapGet m k = some v) : mapContains m k = true := by
  induction m with
  | nil => simp [mapGet] at h
  | cons p rest ih =>
    obtain ⟨l, w⟩ := p
    by_cases hl : l = k
    · simp [mapContains, hl]
    · simp [mapGet, hl] at h
      simp [mapContains, hl, ih h]

/-- A singleton `{_id: idv}` filter matches a document whose `_id` field
equals `idv`. -/
theorem matchesFilter_id_self (fields : List (String × Value)) (idv : Value)
    (h : mapGet fields "_id" = some idv) :
    matchesFilter (.object fields) [("_id", idv)] = true := by
  simp [matchesFilter, h, jsonEq_refl]

/-- The document value produced by `MockDatabase::insert`: the built map
itself when it already carries `_id`, otherwise the map extended with a
generated id. -/
theorem MockDatabase.insert_fst (db : MockDatabase) (c : String)
    (D : List (String × Value)) :
    (MockDatabase.insert db c D).1 =
      .ok (.object (if mapContains (buildDoc D) "_id" = true then buildDoc D
        else mapInsert (buildDoc D) "_id" (.string (idGen db.counter)))) := by
  by_cases h : mapContains (buildDoc D) "_id" = true <;>
    simp [MockDatabase.insert, h]

/-- The collections map after `MockDatabase::insert`: the target
collection gains the inserted document at its end. -/
theorem MockDatabase.insert_snd_collections (db : MockDatabase) (c : String)
    (D : List (String × Value)) (x : String) :
    (MockDatabase.insert db c D).2.collections x =
      (if x = c then
        some (((db.collections c).getD []) ++
          [.object (if mapContains (buildDoc D) "_id" = true then buildDoc D
            else mapInsert (buildDoc D) "_id" (.string (idGen db.counter)))])
      else db.collections x) := by
  by_cases h : mapContains (buildDoc D) "_id" = true <;>
    simp [MockDatabase.insert, h]

/-- The counter after `MockDatabase::insert`: unchanged when the document
carries an explicit `_id`, incremented when an id was generated. -/
theorem MockDatabase.insert_snd_counter (db : MockDatabase) (c : String)
    (D : List (String × Value)) :
    (MockDatabase.insert db c D).2.counter =
      (if mapContains (buildDoc D) "_id" = true then db.counter
       else db.counter + 1) := by
  by_cases h : mapContains (buildDoc D) "_id" = true <;>
    simp [MockDatabase.insert, h]

/-- A filter-only query over a present collection returns exactly the
matching documents, in order. -/
theorem MockDatabase.query_filter_only (db : MockDatabase) (c : String)
    (filter : List (String × Value)) (docs : List Value)
    (h : db.collections c = some docs) :
    MockDatabase.query db c (some filter) none none none none =
      .ok (docs.filter (fun d => matchesFilter d filter)) := by
  unfold MockDatabase.query
  rw [h]
  simp

/-- C7 (amended): an insert always returns a document whose `_id` field
is populated, and when no document already in the collection matches the
filter `{_id: D2._id}` — in particular when the collection held no
document with that identity — an immediately subsequent query with that
filter returns exactly the one-element array containing the inserted
document.  (Without that freshness condition the claim fails: the store
never enforces `_id` uniqueness, see the counterexample.) -/
theorem insert_query_roundtrip_amended :
    (∀ (db : MockDatabase) (c : String) (D : List (String × Value)),
      ∃ fields, (MockDatabase.insert db c D).1 = .ok (.object fields) ∧
        mapContains fields "_id" = true) ∧
    (∀ (db : MockDatabase) (c : String) (D : List (String × Value))
        (doc : Value) (idv : Value),
      (MockDatabase.insert db c D).1 = .ok doc →
      valGet doc "_id" = some idv →
      (∀ d ∈ (db.collections c).getD [], matchesFilter d [("_id", idv)] = false) →
      MockDatabase.query (MockDatabase.insert db c D).2 c
        (some [("_id", idv)]) none none none none = .ok [doc]) := by
  constructor
  · intro db c D
    by_cases h : mapContains (buildDoc D) "_id" = true
    · refine ⟨buildDoc D, ?_, h⟩
      rw [MockDatabase.insert_fst, if_pos h]
    · refine ⟨mapInsert (buildDoc D) "_id" (.string (idGen db.counter)), ?_, ?_⟩
      · rw [MockDatabase.insert_fst, if_neg h]
      · exact mapContains_mapInsert_self _ _ _
  · intro db c D doc idv hfst hid hfresh
    have hdoc : Value.object (if mapContains (buildDoc D) "_id" = true
        then buildDoc D
        else mapInsert (buildDoc D) "_id" (.string (idGen db.counter))) = doc := by
      have := (MockDatabase.insert_fst db c D).symm.trans hfst
      exact (Except.ok.injEq _ _).mp this
    have hcol : (MockDatabase.insert db c D).2.collections c =
        some (((db.collections c).getD []) ++ [doc]) := by
      rw [MockDatabase.insert_snd_collections, if_pos rfl, hdoc]
    rw [MockDatabase.query_filter_only _ _ _ _ hcol]
    have hmatch : matchesFilter doc [("_id", idv)] = true := by
      rw [← hdoc]
      rw [← hdoc] at hid
      exact matchesFilter_id_self _ idv (by simpa [valGet] using hid)
    rw [List.filter_append]
    rw [List.filter_eq_nil_iff.mpr (by
      intro a ha
      simp [hfresh a ha])]
    simp [hmatch]

/-- C7 counterexample: from an empty store, inserting `{_id: "x"}` into
collection `c` twice makes the subsequent query on `{_id: "x"}` return
both copies, not the one-element array the claim demands. -/
theorem insert_query_roundtrip_counterexample :
    MockDatabase.query
      (MockDatabase.insert
        (MockDatabase.insert MockDatabase.new "c" [("_id", Value.string "x")]).2
        "c" [("_id", Value.string "x")]).2
      "c" (some [("_id", Value.string "x")]) none none none none =
      .ok [Value.object [("_id", Value.string "x")],
           Value.object [("_id", Value.string "x")]] ∧
    ([Value.object [("_id", Value.string "x")],
      Value.object [("_id", Value.string "x")]] : List Value) ≠
      [Value.object [("_id", Value.string "x")]] := by
  constructor
  · simp [MockDatabase.insert, MockDatabase.new, buildDoc, mapInsert,
      mapContains, MockDatabase.query, List.filter,
      matchesFilter, mapGet, jsonEq_string]
  · intro h
    have := congrArg List.length h
    simp at this

/-- C7 witness: inserting `{_id: "x"}` into the empty store and querying
`{_id: "x"}` returns exactly the inserted document, and the insert
populated `_id`. -/
theorem insert_query_roundtrip_witness :
    MockDatabase.query
      (MockDatabase.insert MockDatabase.new "posts" [("_id", Value.string "x")]).2
      "posts" (some [("_id", Value.string "x")]) none none none none =
      .ok [Value.object [("_id", Value.string "x")]] ∧
    (∃ fields,
      (MockDatabase.insert MockDatabase.new "posts"
        [("_id", Value.string "x")]).1 = .ok (.object fields) ∧
      mapContains fields "_id" = true) := by
  constructor
  · exact insert_query_roundtrip_amended.2 MockDatabase.new "posts"
      [("_id", Value.string "x")] (Value.object [("_id", Value.string "x")])
      (Value.string "x") rfl rfl
      (by intro d hd; simp [MockDatabase.new] at hd)
  · exact insert_query_roundtrip_amended.1 MockDatabase.new "posts"
      [("_id", Value.string "x")]

/-- C8: reads of a never-created collection are empty and error-free
(query, update and delete all return the empty array and leave the store
unchanged), and an insert into an absent collection creates the
collection, which afterwards holds exactly the inserted document. -/
theorem missing_collection_is_empty :
    ∀ (db : MockDatabase) (c : String)
      (filterOpt : Option (List (String × Value)))
      (select : Option (List String)) (limit skip : Option Nat)
      (sort : Option (List (String × SortOrder)))
      (filter update document : List (String × Value)),
      db.collections c = none →
      MockDatabase.query db c filterOpt select limit skip sort = .ok [] ∧
      MockDatabase.update db c filter update = (.ok [], db) ∧
      MockDatabase.delete db c filter = (.ok [], db) ∧
      (∃ fields, (MockDatabase.insert db c document).1 = .ok (.object fields) ∧
        (MockDatabase.insert db c document).2.collections c =
          some [.object fields]) := by
  intro db c filterOpt select limit skip sort filter update document h
  refine ⟨?_, ?_, ?_, ?_⟩
  · unfold MockDatabase.query
    rw [h]
  · unfold MockDatabase.update
    rw [h]
  · unfold MockDatabase.delete
    rw [h]
  · refine ⟨(if mapContains (buildDoc document) "_id" = true then buildDoc document
      else mapInsert (buildDoc document) "_id" (.string (idGen db.counter))), ?_, ?_⟩
    · rw [MockDatabase.insert_fst]
    · rw [MockDatabase.insert_snd_collections, if_pos rfl, h]
      rfl

/-- C8 witness: the theorem instantiated at the fresh store and the
never-created collection `posts`. -/
theorem missing_collection_is_empty_witness :
    MockDatabase.query MockDatabase.new "posts" none none none none none =
      .ok [] ∧
    MockDatabase.update MockDatabase.new "posts" [] [] =
      (.ok [], MockDatabase.new) ∧
    MockDatabase.delete MockDatabase.new "posts" [] = (.ok [], MockDatabase.new) ∧
    (∃ fields,
      (MockDatabase.insert MockDatabase.new "posts"
        [("title", Value.string "T")]).1 = .ok (.object fields) ∧
      (MockDatabase.insert MockDatabase.new "posts"
        [("title", Value.string "T")]).2.collections "posts" =
        some [.object fields]) :=
  missing_collection_is_empty MockDatabase.new "posts" none none none none none
    [] [] [("title", Value.string "T")] rfl

/-- C9: the store never enforces `_id` uniqueness.  Inserting a document
whose built map carries an explicit `_id` equal to `x` into a collection
that already contains a document matching `{_id: x}` succeeds, returns
the new document with that `_id` unchanged (the id generator is not
consulted: the counter stays put), and a subsequent query on `{_id: x}`
returns the previously matching documents followed by the new one — at
least two documents. -/
theorem duplicate_id_insert :
    ∀ (db : MockDatabase) (c : String) (D : List (String × Value))
      (docs : List Value) (x : Value),
      mapGet (buildDoc D) "_id" = some x →
      db.collections c = some docs →
      (∃ d ∈ docs, matchesFilter d [("_id", x)] = true) →
      (MockDatabase.insert db c D).1 = .ok (.object (buildDoc D)) ∧
      (MockDatabase.insert db c D).2.counter = db.counter ∧
      MockDatabase.query (MockDatabase.insert db c D).2 c (some [("_id", x)])
        none none none none =
        .ok ((docs.filter (fun d => matchesFilter d [("_id", x)])) ++
          [Value.object (buildDoc D)]) ∧
      2 ≤ ((docs.filter (fun d => matchesFilter d [("_id", x)])) ++
        [Value.object (buildDoc D)]).length := by
  intro db c D docs x hget hcol hexists
  have hcontains : mapContains (buildDoc D) "_id" = true :=
    mapContains_of_mapGet hget
  have hmatch : matchesFilter (.object (buildDoc D)) [("_id", x)] = true :=
    matchesFilter_id_self _ x hget
  refine ⟨?_, ?_, ?_, ?_⟩
  · rw [MockDatabase.insert_fst, if_pos hcontains]
  · rw [MockDatabase.insert_snd_counter, if_pos hcontains]
  · have hcol2 : (MockDatabase.insert db c D).2.collections c =
        some (docs ++ [.object (buildDoc D)]) := by
      rw [MockDatabase.insert_snd_collections, if_pos rfl, if_pos hcontains, hcol]
      rfl
    rw [MockDatabase.query_filter_only _ _ _ _ hcol2]
    rw [List.filter_append]
    simp [hmatch]
  · obtain ⟨d, hd, hdm⟩ := hexists
    have hmem : d ∈ docs.filter (fun d => matchesFilter d [("_id", x)]) :=
      List.mem_filter.mpr ⟨hd, hdm⟩
    have hpos : 0 < (docs.filter (fun d => matchesFilter d [("_id", x)])).length :=
      List.length_pos_of_mem hmem
    simp only [List.length_append, List.length_cons, List.length_nil]
    omega

/-- C9 witness: with `c` already holding `{_id: "x"}`, inserting another
`{_id: "x"}` succeeds with the id unchanged and the query returns both
documents. -/
theorem duplicate_id_insert_witness :
    (MockDatabase.insert
      (MockDatabase.withCollection MockDatabase.new "c"
        [Value.object [("_id", Value.string "x")]])
      "c" [("_id", Value.string "x")]).1 =
      .ok (.object [("_id", Value.string "x")]) ∧
    MockDatabase.query
      (MockDatabase.insert
        (MockDatabase.withCollection MockDatabase.new "c"
          [Value.object [("_id", Value.string "x")]])
        "c" [("_id", Value.string "x")]).2
      "c" (some [("_id", Value.string "x")]) none none none none =
      .ok [Value.object [("_id", Value.string "x")],
           Value.object [("_id", Value.string "x")]] := by
  have h := duplicate_id_insert
    (MockDatabase.withCollection MockDatabase.new "c"
      [Value.object [("_id", Value.string "x")]])
    "c" [("_id", Value.string "x")]
    [Value.object [("_id", Value.string "x")]] (Value.string "x")
    rfl rfl
    ⟨Value.object [("_id", Value.string "x")], by simp,
      matchesFilter_id_self [("_id", Value.string "x")] (Value.string "x") rfl⟩
  refine ⟨h.1, ?_⟩
  have h3 := h.2.2.1
  rw [h3]
  have : (List.filter (fun d => matchesFilter d [("_id", Value.string "x")])
      [Value.object [("_id", Value.string "x")]]) =
      [Value.object [("_id", Value.string "x")]] := by
    simp [List.filter,
      matchesFilter_id_self [("_id", Value.string "x")] (Value.string "x") rfl]
  rw [this]
  rfl

theorem sortDocuments_nil (sort : List (String × SortOrder)) :
    sortDocuments [] sort = [] := by
  cases sort with
  | nil => rfl
  | cons p rest =>
    obtain ⟨field, order⟩ := p
    rfl

/-- C10: a fully specified query applies its clauses in the fixed order
filter, then sort, then skip, then limit, then select — so skip and limit
count documents after sorting; the select projection commutes out of any
query, so it never changes which documents are selected; and a sort map
with more than one entry behaves exactly like the single-entry sort on
its first entry (`HashMap` iteration order being unspecified, which entry
is first is arbitrary). -/
theorem query_clause_order :
    (∀ (db : MockDatabase) (c : String) (f : List (String × Value))
        (sel : List String) (l k : Nat) (srt : List (String × SortOrder)),
      MockDatabase.query db c (some f) (some sel) (some l) (some k) (some srt) =
        .ok ((((sortDocuments (((db.collections c).getD []).filter
            (fun d => matchesFilter d f)) srt).drop k).take l).map
          (fun d => projectFields d sel))) ∧
    (∀ (db : MockDatabase) (c : String)
        (filterOpt : Option (List (String × Value))) (sel : List String)
        (limit skip : Option Nat) (sort : Option (List (String × SortOrder))),
      MockDatabase.query db c filterOpt (some sel) limit skip sort =
        (MockDatabase.query db c filterOpt none limit skip sort).map
          (List.map (fun d => projectFields d sel))) ∧
    (∀ (docs : List Value) (field : String) (order : SortOrder)
        (rest : List (String × SortOrder)),
      sortDocuments docs ((field, order) :: rest) =
        sortDocuments docs [(field, order)]) := by
  refine ⟨?_, ?_, ?_⟩
  · intro db c f sel l k srt
    cases h : db.collections c with
    | none =>
      unfold MockDatabase.query
      rw [h]
      simp [sortDocuments_nil]
    | some docs =>
      unfold MockDatabase.query
      rw [h]
      simp only [Option.getD_some]
      by_cases hk : k > 0
      · simp [hk]
      · have hk0 : k = 0 := by omega
        simp [hk, hk0]
  · intro db c filterOpt sel limit skip sort
    cases h : db.collections c with
    | none =>
      unfold MockDatabase.query
      rw [h]
      rfl
    | some docs =>
      unfold MockDatabase.query
      rw [h]
      simp [Except.map]
  · intro docs field order rest
    rfl
